import Mathlib

/-!
Shallow embedding of the indexed-collection diffing engine
(src/src/factory/collections/factory_vec_deque.rs).

The Rust code keeps, inside one container, a deque of data elements each
paired with a shared mutable index cell (DynamicIndex), a deque of
materialized widgets, and a log of pending changes.  The embedding models:

* the DynamicIndex cell contents as a plain natural number stored with its
  element (each entry owns its own cell; external holders only read);
* panics (slice indexing, unwrap, the change-lattice logic error) as None;
* widget objects as records carrying a fresh numeric identity plus the data
  element they were generated from, with the fresh-id supply threaded
  explicitly through generate;
* calls into the element/view collaborators as an emitted list of operations.
-/

namespace Relm4

/-- The five change kinds of the change lattice (ChangeType in the source). -/
inductive ChangeType : Type where
  | Unchanged : ChangeType
  | Add : ChangeType
  | Remove : ChangeType
  | Recreate : ChangeType
  | Update : ChangeType
deriving DecidableEq, Repr

/-- ChangeType::apply from the source: merge an incoming change (other) into
the current one; the panic branches are modelled as none. -/
def ChangeType.apply : ChangeType → ChangeType → Option ChangeType
  | .Unchanged, other => some other
  | .Update, other => if other = .Unchanged then some .Update else some other
  | .Add, other =>
      if other = .Remove then some .Remove
      else if other ≠ .Update then none
      else some .Add
  | .Recreate, other =>
      if other = .Remove then some .Remove
      else if other ≠ .Update then none
      else some .Recreate
  | .Remove, other => if other = .Add then some .Recreate else none

/-- A queued change record (struct Change in the source). -/
structure Change : Type where
  ty : ChangeType
  index : Nat
deriving DecidableEq, Repr

/-- A data element paired with the contents of its DynamicIndex cell
(struct IndexedData in the source). -/
structure IndexedData (α : Type) : Type where
  inner : α
  index : Nat
deriving DecidableEq, Repr

/-- A materialized view object.  The source stores opaque widget values; the
model gives each one a fresh numeric identity (wid) and remembers which data
element it was generated from (src). -/
structure Widget (α : Type) : Type where
  wid : Nat
  src : α
deriving DecidableEq, Repr

/-- The container (struct FactoryVecDeque in the source): the entries, the
materialized widgets and the pending change log. -/
structure FactoryVecDeque (α : Type) : Type where
  data : List (IndexedData α)
  widgets : List (Widget α)
  changes : List Change
deriving DecidableEq, Repr

/-- FactoryVecDeque::add_change: renumber the queued records (Add shifts
records at or after the new slot up, Remove shifts records strictly after
the slot down), then push the new record. -/
def add_change (s : FactoryVecDeque α) (change : Change) : FactoryVecDeque α :=
  let changes1 :=
    match change.ty with
    | .Add =>
        s.changes.map fun e =>
          if e.index ≥ change.index then { e with index := e.index + 1 } else e
    | .Remove =>
        s.changes.map fun e =>
          if e.index > change.index then { e with index := e.index - 1 } else e
    | _ => s.changes
  { s with changes := changes1 ++ [change] }

/-- FactoryVecDeque::push_back. -/
def push_back (s : FactoryVecDeque α) (v : α) : FactoryVecDeque α :=
  let index := s.data.length
  let s1 := add_change s ⟨.Add, index⟩
  { s1 with data := s1.data ++ [⟨v, index⟩] }

/-- FactoryVecDeque::pop_back: pop, then record Remove at the new length. -/
def pop_back (s : FactoryVecDeque α) : Option α × FactoryVecDeque α :=
  let popped := s.data.getLast?
  let data1 := s.data.take (s.data.length - 1)
  let index := data1.length
  let s1 := add_change { s with data := data1 } ⟨.Remove, index⟩
  (popped.map fun e => e.inner, s1)

/-- FactoryVecDeque::push_front: advance every handle, record Add at 0,
prepend. -/
def push_front (s : FactoryVecDeque α) (v : α) : FactoryVecDeque α :=
  let data1 := s.data.map fun e => { e with index := e.index + 1 }
  let s1 := add_change { s with data := data1 } ⟨.Add, 0⟩
  { s1 with data := ⟨v, 0⟩ :: s1.data }

/-- FactoryVecDeque::pop_front: record Remove at 0, pop, retreat every
remaining handle. -/
def pop_front (s : FactoryVecDeque α) : Option α × FactoryVecDeque α :=
  let s1 := add_change s ⟨.Remove, 0⟩
  match s1.data with
  | [] => (none, s1)
  | e :: rest =>
      (some e.inner, { s1 with data := rest.map fun e2 => { e2 with index := e2.index - 1 } })

/-- FactoryVecDeque::insert: advance every handle whose value is at least i,
record Add at i, then splice the element in.  VecDeque::insert panics when
i exceeds the length; that abort is modelled as none. -/
def insert (s : FactoryVecDeque α) (i : Nat) (v : α) : Option (FactoryVecDeque α) :=
  let data1 := s.data.map fun e =>
    if e.index ≥ i then { e with index := e.index + 1 } else e
  let s1 := add_change { s with data := data1 } ⟨.Add, i⟩
  if i ≤ s1.data.length then
    some { s1 with data := s1.data.take i ++ ⟨v, i⟩ :: s1.data.drop i }
  else none

/-- FactoryVecDeque::remove: record Remove at i, remove the element when it
exists (VecDeque::remove yields None and leaves the deque untouched when i
is out of range), then retreat every handle whose value exceeds i. -/
def remove (s : FactoryVecDeque α) (i : Nat) : Option α × FactoryVecDeque α :=
  let s1 := add_change s ⟨.Remove, i⟩
  let popped := (s1.data[i]?).map fun e => e.inner
  let data1 := s1.data.take i ++ s1.data.drop (i + 1)
  let data2 := data1.map fun e =>
    if e.index > i then { e with index := e.index - 1 } else e
  (popped, { s1 with data := data2 })

/-- FactoryVecDeque::get: the slice indexing panic is modelled as none. -/
def get (s : FactoryVecDeque α) (i : Nat) : Option α :=
  (s.data[i]?).map fun e => e.inner

/-- FactoryVecDeque::get_mut: records Update at i, then indexes (the panic on
an out-of-range index is modelled as a none first component). -/
def get_mut (s : FactoryVecDeque α) (i : Nat) : Option α × FactoryVecDeque α :=
  let s1 := add_change s ⟨.Update, i⟩
  ((s1.data[i]?).map fun e => e.inner, s1)

/-- One iteration of the loop inside FactoryVecDeque::compile_changes: grow
the map while its length is below the record's index, then index into it
(an out-of-range index panics: none) and merge via the lattice (a lattice
violation panics: none). -/
def apply_change (m : List ChangeType) (change : Change) : Option (List ChangeType) :=
  let m1 := m ++ List.replicate (change.index - m.length) ChangeType.Unchanged
  match m1[change.index]? with
  | none => none
  | some t => (t.apply change.ty).map fun t2 => m1.set change.index t2

/-- FactoryVecDeque::compile_changes: fold the pending log into a per-slot
plan of length data.len() + 1. -/
def compile_changes (s : FactoryVecDeque α) : Option (List ChangeType) :=
  s.changes.foldlM apply_change
    (List.replicate (s.data.length + 1) ChangeType.Unchanged)

/-- A call into one of the collaborators during generate: an element
materialization or in-place update, or one of the three view primitives. -/
inductive FOp (α : Type) : Type where
  | materialize : Nat → α → Nat → FOp α
  | updateCall : Nat → α → Nat → FOp α
  | viewPushFront : Nat → FOp α
  | viewInsertAfter : Nat → Nat → FOp α
  | viewRemove : Nat → FOp α
deriving DecidableEq, Repr

/-- One iteration of the loop inside Factory::generate for FactoryVecDeque,
processing the compiled change of one slot.  The accumulator carries the
widget deque, the fresh-id supply and the collaborator calls issued so far;
every slice-indexing or unwrap panic is modelled as none. -/
def generate_step (data : List (IndexedData α))
    (acc : List (Widget α) × Nat × List (FOp α)) (ic : Nat × ChangeType) :
    Option (List (Widget α) × Nat × List (FOp α)) :=
  match ic.2 with
  | .Unchanged => some acc
  | .Add =>
      let widgets := acc.1
      let nid := acc.2.1
      let ops := acc.2.2
      let index := ic.1
      match data[index]? with
      | none => none
      | some d =>
          let w : Widget α := ⟨nid, d.inner⟩
          let vops :=
            if widgets.isEmpty || index == 0 then some [FOp.viewPushFront w.wid]
            else (widgets[index - 1]?).map fun anchor =>
              [FOp.viewInsertAfter w.wid anchor.wid]
          match vops with
          | none => none
          | some vops =>
              if index ≤ widgets.length then
                some (widgets.take index ++ w :: widgets.drop index, nid + 1,
                  ops ++ FOp.materialize index d.inner w.wid :: vops)
              else none
  | .Update =>
      let widgets := acc.1
      let index := ic.1
      match data[index]?, widgets[index]? with
      | some d, some w =>
          some (widgets, acc.2.1, acc.2.2 ++ [FOp.updateCall index d.inner w.wid])
      | _, _ => none
  | .Remove =>
      let widgets := acc.1
      let index := ic.1
      match widgets[index]? with
      | none => none
      | some w =>
          some (widgets.take index ++ widgets.drop (index + 1), acc.2.1,
            acc.2.2 ++ [FOp.viewRemove w.wid])
  | .Recreate =>
      let widgets := acc.1
      let nid := acc.2.1
      let ops := acc.2.2
      let index := ic.1
      match widgets.getLast? with
      | none => none
      | some wOld =>
          let widgets1 := widgets.take (widgets.length - 1)
          match data[index]? with
          | none => none
          | some d =>
              let w : Widget α := ⟨nid, d.inner⟩
              let vops :=
                if widgets1.isEmpty || index == 0 then some [FOp.viewPushFront w.wid]
                else (widgets1[index - 1]?).map fun anchor =>
                  [FOp.viewInsertAfter w.wid anchor.wid]
              match vops with
              | none => none
              | some vops =>
                  if index ≤ widgets1.length then
                    some (widgets1.take index ++ w :: widgets1.drop index, nid + 1,
                      ops ++ FOp.viewRemove wOld.wid ::
                        FOp.materialize index d.inner w.wid :: vops)
                  else none

/-- Factory::generate for FactoryVecDeque: compile the pending log, replay
it slot by slot in ascending order against the widget deque and the view,
then clear the log.  The nid argument is the fresh-id supply for newly
materialized widgets; the result carries the final state, the remaining
supply, and the collaborator calls in issue order. -/
def generate (s : FactoryVecDeque α) (nid : Nat) :
    Option (FactoryVecDeque α × Nat × List (FOp α)) :=
  (compile_changes s).bind fun cm =>
    (cm.enum.foldlM (generate_step s.data) (s.widgets, nid, ([] : List (FOp α)))).bind
      fun acc => some ({ s with widgets := acc.1, changes := [] }, acc.2.1, acc.2.2)

/-- The Stable Position Handle invariant: every entry's DynamicIndex cell
holds the entry's actual position in the data sequence. -/
def handleInv (s : FactoryVecDeque α) : Prop :=
  s.data.map (fun e => e.index) = List.range s.data.length

instance (s : FactoryVecDeque α) : Decidable (handleInv s) := by
  unfold handleInv; infer_instance

/-- The public mutation operations of the container. -/
inductive Op (α : Type) : Type where
  | pushBack : α → Op α
  | popBack : Op α
  | pushFront : α → Op α
  | popFront : Op α
  | insertOp : Nat → α → Op α
  | removeOp : Nat → Op α
deriving DecidableEq, Repr

/-- Whether an operation is in range for the current state (insert permits
an append at the length; pops are always legal calls). -/
def inRange (s : FactoryVecDeque α) : Op α → Bool
  | .insertOp i _ => decide (i ≤ s.data.length)
  | .removeOp i => decide (i < s.data.length)
  | _ => true

/-- Apply one public mutation, discarding returned elements. -/
def applyOp (s : FactoryVecDeque α) : Op α → FactoryVecDeque α
  | .pushBack v => push_back s v
  | .popBack => (pop_back s).2
  | .pushFront v => push_front s v
  | .popFront => (pop_front s).2
  | .insertOp i v => (insert s i v).getD s
  | .removeOp i => (remove s i).2

/-- Apply a sequence of public mutations from left to right. -/
def applyOps (s : FactoryVecDeque α) (ops : List (Op α)) : FactoryVecDeque α :=
  ops.foldl applyOp s

/-- Every operation of a sequence is in range at the state where it runs. -/
def seqInRange : FactoryVecDeque α → List (Op α) → Bool
  | _, [] => true
  | s, op :: rest => inRange s op && seqInRange (applyOp s op) rest

/-- A reconciled two-element collection: entries 10 and 20, their widgets
materialized, and an empty pending log. -/
def recon2 : FactoryVecDeque Nat :=
  ⟨[⟨10, 0⟩, ⟨20, 1⟩], [⟨0, 10⟩, ⟨1, 20⟩], []⟩

/-- A reconciled three-element collection: entries 10, 20, 30, their widgets
materialized, and an empty pending log. -/
def recon3 : FactoryVecDeque Nat :=
  ⟨[⟨10, 0⟩, ⟨20, 1⟩, ⟨30, 2⟩], [⟨0, 10⟩, ⟨1, 20⟩, ⟨2, 30⟩], []⟩

/-- The state reached from recon3 by insert(2, 40) followed by remove(2):
an Add and a Remove both queued at slot 2 in one batch. -/
def addRemoveBatch : FactoryVecDeque Nat :=
  (remove ((insert recon3 2 40).getD recon3) 2).2

/-- The state reached from recon3 by insert(1, 40) followed by remove(1). -/
def insertRemoveBatch : FactoryVecDeque Nat :=
  (remove ((insert recon3 1 40).getD recon3) 1).2

/-- recon3 with a pending log that compiles to Recreate at slot 1. -/
def recreateBatch : FactoryVecDeque Nat :=
  ⟨[⟨10, 0⟩, ⟨20, 1⟩, ⟨30, 2⟩], [⟨0, 10⟩, ⟨1, 20⟩, ⟨2, 30⟩],
    [⟨.Remove, 1⟩, ⟨.Add, 1⟩]⟩

/-- C3: the change-merge function realizes exactly the stated equations, fully
enumerated over all 25 ordered pairs; the fatal logic error branches are the
none results. -/
theorem c3_change_lattice :
    (ChangeType.apply .Unchanged .Unchanged = some .Unchanged)
    ∧ (ChangeType.apply .Unchanged .Add = some .Add)
    ∧ (ChangeType.apply .Unchanged .Remove = some .Remove)
    ∧ (ChangeType.apply .Unchanged .Recreate = some .Recreate)
    ∧ (ChangeType.apply .Unchanged .Update = some .Update)
    ∧ (ChangeType.apply .Update .Unchanged = some .Update)
    ∧ (ChangeType.apply .Update .Add = some .Add)
    ∧ (ChangeType.apply .Update .Remove = some .Remove)
    ∧ (ChangeType.apply .Update .Recreate = some .Recreate)
    ∧ (ChangeType.apply .Update .Update = some .Update)
    ∧ (ChangeType.apply .Add .Update = some .Add)
    ∧ (ChangeType.apply .Add .Remove = some .Remove)
    ∧ (ChangeType.apply .Add .Unchanged = none)
    ∧ (ChangeType.apply .Add .Add = none)
    ∧ (ChangeType.apply .Add .Recreate = none)
    ∧ (ChangeType.apply .Recreate .Update = some .Recreate)
    ∧ (ChangeType.apply .Recreate .Remove = some .Remove)
    ∧ (ChangeType.apply .Recreate .Unchanged = none)
    ∧ (ChangeType.apply .Recreate .Add = none)
    ∧ (ChangeType.apply .Recreate .Recreate = none)
    ∧ (ChangeType.apply .Remove .Add = some .Recreate)
    ∧ (ChangeType.apply .Remove .Unchanged = none)
    ∧ (ChangeType.apply .Remove .Remove = none)
    ∧ (ChangeType.apply .Remove .Recreate = none)
    ∧ (ChangeType.apply .Remove .Update = none) := by
  decide

/-- C5: appending an Add record at slot i first shifts every queued record at
or after i up by one, a Remove record shifts every queued record strictly
after i down by one, and an Update record shifts nothing; in particular the
two concrete renumbering examples of the specification hold. -/
theorem c5_renumbering :
    (∀ (s : FactoryVecDeque Nat) (i : Nat),
        (add_change s ⟨.Add, i⟩).changes =
          (s.changes.map fun e =>
            if i ≤ e.index then ⟨e.ty, e.index + 1⟩ else e) ++ [⟨.Add, i⟩]
        ∧ (add_change s ⟨.Remove, i⟩).changes =
          (s.changes.map fun e =>
            if i < e.index then ⟨e.ty, e.index - 1⟩ else e) ++ [⟨.Remove, i⟩]
        ∧ (add_change s ⟨.Update, i⟩).changes = s.changes ++ [⟨.Update, i⟩])
    ∧ (add_change (⟨[], [], [⟨.Update, 3⟩]⟩ : FactoryVecDeque Nat) ⟨.Add, 1⟩).changes
        = [⟨.Update, 4⟩, ⟨.Add, 1⟩]
    ∧ (add_change (⟨[], [], [⟨.Update, 3⟩]⟩ : FactoryVecDeque Nat) ⟨.Remove, 1⟩).changes
        = [⟨.Update, 2⟩, ⟨.Remove, 1⟩] :=
  ⟨fun _ _ => ⟨rfl, rfl, rfl⟩, by decide, by decide⟩

/-- C2 counterexample: recording Add at slot 2 then Remove at slot 2 in one
batch (via insert(2, 40) then remove(2) on a reconciled three-element
collection) compiles to Remove at slot 2, not Unchanged, and the reconcile
does issue a view remove call. -/
theorem c2_counterexample :
    addRemoveBatch.changes = [⟨.Add, 2⟩, ⟨.Remove, 2⟩]
    ∧ compile_changes addRemoveBatch
        = some [.Unchanged, .Unchanged, .Remove, .Unchanged]
    ∧ ((compile_changes addRemoveBatch).getD []).getD 2 .Unchanged ≠ .Unchanged
    ∧ (generate addRemoveBatch 3).map (fun r => r.2.2) = some [FOp.viewRemove 2]
    ∧ (generate addRemoveBatch 3).map (fun r => r.2.2) ≠ some [] := by
  decide

/-- C2 amended: a batch whose log is exactly Add at slot i followed by Remove
at slot i (with i in range) compiles to Remove at slot i, not Unchanged; on
the concrete slot-2 instance the reconcile issues no materialize call but
exactly one view remove call for the slot. -/
theorem c2_amended (s : FactoryVecDeque Nat) (i : Nat)
    (hch : s.changes = [⟨.Add, i⟩, ⟨.Remove, i⟩]) (hi : i ≤ s.data.length) :
    compile_changes s
      = some ((List.replicate (s.data.length + 1) ChangeType.Unchanged).set i .Remove)
    ∧ ((compile_changes addRemoveBatch).getD []).getD 2 .Unchanged = .Remove
    ∧ (generate addRemoveBatch 3).map (fun r => r.2.2) = some [FOp.viewRemove 2] := by
  refine ⟨?_, by decide, by decide⟩
  have hi1 : i < s.data.length + 1 := Nat.lt_succ_of_le hi
  unfold compile_changes
  rw [hch, List.foldlM_cons]
  have h1 : apply_change (List.replicate (s.data.length + 1) ChangeType.Unchanged)
      ⟨.Add, i⟩
      = some ((List.replicate (s.data.length + 1) ChangeType.Unchanged).set i .Add) := by
    unfold apply_change
    have hz : i - (List.replicate (s.data.length + 1) ChangeType.Unchanged).length = 0 := by
      rw [List.length_replicate]; omega
    rw [hz]
    simp [List.getElem?_replicate, hi1, ChangeType.apply]
  rw [h1]
  simp only [Option.bind_eq_bind, Option.some_bind]
  rw [List.foldlM_cons]
  have h2 : apply_change
      ((List.replicate (s.data.length + 1) ChangeType.Unchanged).set i .Add)
      ⟨.Remove, i⟩
      = some ((List.replicate (s.data.length + 1) ChangeType.Unchanged).set i .Remove) := by
    unfold apply_change
    have hz : i - ((List.replicate (s.data.length + 1) ChangeType.Unchanged).set i
        ChangeType.Add).length = 0 := by
      rw [List.length_set, List.length_replicate]; omega
    rw [hz]
    simp [List.getElem?_set, List.length_replicate, hi1, ChangeType.apply,
      List.set_set]
  rw [h2]
  simp only [Option.bind_eq_bind, Option.some_bind]
  rw [List.foldlM_nil]
  rfl

/-- C2 amended witness: the concrete slot-2 batch satisfies the hypotheses and
its compiled plan has Remove at slot 2. -/
theorem c2_amended_witness :
    addRemoveBatch.changes = [⟨.Add, 2⟩, ⟨.Remove, 2⟩]
    ∧ (2 ≤ addRemoveBatch.data.length)
    ∧ compile_changes addRemoveBatch
      = some ((List.replicate (addRemoveBatch.data.length + 1)
          ChangeType.Unchanged).set 2 .Remove) :=
  ⟨by decide, by decide, (c2_amended addRemoveBatch 2 (by decide) (by decide)).1⟩

/-- C6 counterexample: with a pending log compiling to Recreate at slot 1 on a
reconciled three-element collection, the reconcile discards the widget at the
back of the widget sequence (id 2), not the widget at slot 1 (id 1): the view
remove call for the slot-1 widget never appears in the issued calls. -/
theorem c6_counterexample :
    compile_changes recreateBatch
      = some [.Unchanged, .Recreate, .Unchanged, .Unchanged]
    ∧ (generate recreateBatch 3).map (fun r => r.2.2)
        = some [FOp.viewRemove 2, FOp.materialize 1 20 3, FOp.viewInsertAfter 3 0]
    ∧ (recreateBatch.widgets.getD 1 ⟨0, 0⟩).wid = 1
    ∧ FOp.viewRemove (recreateBatch.widgets.getD 1 ⟨0, 0⟩).wid
        ∉ [FOp.viewRemove 2, FOp.materialize 1 20 3, FOp.viewInsertAfter 3 0] := by
  decide

/-- C6 amended: whenever the Recreate branch of the replay completes, the view
remove call it issues names the widget at the back of the materialized-views
sequence (the result of pop_back), and the replacement widget, materialized
from the data at the slot, ends up spliced in at that slot. -/
theorem c6_amended (data : List (IndexedData Nat)) (widgets w2 : List (Widget Nat))
    (nid nid2 : Nat) (ops ops2 : List (FOp Nat)) (i : Nat) (wOld : Widget Nat)
    (hw : widgets.getLast? = some wOld)
    (h : generate_step data (widgets, nid, ops) (i, ChangeType.Recreate)
      = some (w2, nid2, ops2)) :
    FOp.viewRemove wOld.wid ∈ ops2
    ∧ ∀ d, data[i]? = some d → w2[i]? = some ⟨nid, d.inner⟩ := by
  unfold generate_step at h
  dsimp only at h
  rw [hw] at h
  cases hd : data[i]? with
  | none => rw [hd] at h; exact absurd h (by simp)
  | some d =>
      rw [hd] at h
      dsimp only at h
      by_cases hc : ((widgets.take (widgets.length - 1)).isEmpty
          || i == 0) = true
      · rw [if_pos hc] at h
        dsimp only at h
        split at h
        · rename_i hle
          injection h with h
          injection h with hw2 h
          injection h with hnid hops
          subst hw2; subst hops
          constructor
          · simp [List.mem_append, List.mem_cons]
          · intro d2 hd2
            injection hd2 with hdd
            subst hdd
            simp only [List.length_take] at hle
            have hge : (List.take i (List.take (widgets.length - 1) widgets)).length
                ≤ i := by
              simp only [List.length_take]
              omega
            have hsub : i - (List.take i
                (List.take (widgets.length - 1) widgets)).length = 0 := by
              simp only [List.length_take]
              omega
            rw [List.getElem?_append_right hge, hsub]
            simp
        · exact absurd h (by simp)
      · rw [if_neg hc] at h
        cases ha : (widgets.take (widgets.length - 1))[i - 1]? with
        | none => rw [ha] at h; exact absurd h (by simp)
        | some anchor =>
            rw [ha] at h
            simp only [Option.map_some'] at h
            split at h
            · rename_i hle
              injection h with h
              injection h with hw2 h
              injection h with hnid hops
              subst hw2; subst hops
              constructor
              · simp [List.mem_append, List.mem_cons]
              · intro d2 hd2
                injection hd2 with hdd
                subst hdd
                simp only [List.length_take] at hle
                have hge : (List.take i (List.take (widgets.length - 1) widgets)).length
                    ≤ i := by
                  simp only [List.length_take]
                  omega
                have hsub : i - (List.take i
                    (List.take (widgets.length - 1) widgets)).length = 0 := by
                  simp only [List.length_take]
                  omega
                rw [List.getElem?_append_right hge, hsub]
                simp
            · exact absurd h (by simp)

/-- C6 amended witness: on the concrete Recreate batch the branch completes,
discarding the back widget (id 2) and splicing the replacement in at slot 1. -/
theorem c6_amended_witness :
    recreateBatch.widgets.getLast? = some ⟨2, 30⟩
    ∧ FOp.viewRemove 2
        ∈ [FOp.viewRemove 2, FOp.materialize 1 20 3, FOp.viewInsertAfter 3 0]
    ∧ ([⟨0, 10⟩, ⟨3, 20⟩, ⟨1, 20⟩] : List (Widget Nat))[1]? = some ⟨3, 20⟩ :=
  ⟨by decide, (c6_amended recreateBatch.data recreateBatch.widgets
      [⟨0, 10⟩, ⟨3, 20⟩, ⟨1, 20⟩] 3 4 [] [FOp.viewRemove 2, FOp.materialize 1 20 3,
        FOp.viewInsertAfter 3 0] 1 ⟨2, 30⟩ (by decide) (by decide)).1,
    (c6_amended recreateBatch.data recreateBatch.widgets
      [⟨0, 10⟩, ⟨3, 20⟩, ⟨1, 20⟩] 3 4 [] [FOp.viewRemove 2, FOp.materialize 1 20 3,
        FOp.viewInsertAfter 3 0] 1 ⟨2, 30⟩ (by decide) (by decide)).2 ⟨20, 1⟩ (by decide)⟩

/-- C7: reconciliation convergence fails on the code: from a reconciled
three-element collection, insert(1, 40) followed by remove(1) and one
reconcile completes successfully (no panic), yet it removes the widget of an
entry still present and leaves 2 materialized widgets against 3 entries. -/
theorem c7_failing_input :
    generate insertRemoveBatch 3
      = some (⟨[⟨10, 0⟩, ⟨20, 1⟩, ⟨30, 2⟩], [⟨0, 10⟩, ⟨2, 30⟩], []⟩, 3,
          [FOp.viewRemove 1])
    ∧ (generate insertRemoveBatch 3).map (fun r => r.1.widgets.length) = some 2
    ∧ (generate insertRemoveBatch 3).map (fun r => r.1.data.length) = some 3
    ∧ (2 : Nat) ≠ 3 := by
  decide

/-- C10: the fatal lattice-violation branch is reachable through legal API
usage alone: two consecutive pop_back calls on a reconciled two-element
collection queue two Remove records that the renumbering rule maps onto
slot 0, and the next compile aborts with the Remove-into-Remove logic error
(modelled as none), so reconcile aborts as well. -/
theorem c10_fatal_reachable :
    handleInv recon2
    ∧ recon2.changes = []
    ∧ seqInRange recon2 [Op.popBack, Op.popBack] = true
    ∧ (applyOps recon2 [Op.popBack, Op.popBack]).changes
        = [⟨.Remove, 0⟩, ⟨.Remove, 0⟩]
    ∧ compile_changes (applyOps recon2 [Op.popBack, Op.popBack]) = none
    ∧ generate (applyOps recon2 [Op.popBack, Op.popBack]) 2 = none := by
  decide

/-- C4 counterexample: remove(0) on an empty collection reports the failure
as a recoverable None, but the collection state is not left unchanged: a
Remove record is appended to the pending log; get_mut(0) likewise appends an
Update record before its failing access. -/
theorem c4_counterexample :
    (remove (⟨[], [], []⟩ : FactoryVecDeque Nat) 0).1 = none
    ∧ (remove (⟨[], [], []⟩ : FactoryVecDeque Nat) 0).2
        ≠ (⟨[], [], []⟩ : FactoryVecDeque Nat)
    ∧ (remove (⟨[], [], []⟩ : FactoryVecDeque Nat) 0).2.changes = [⟨.Remove, 0⟩]
    ∧ (get_mut (⟨[], [], []⟩ : FactoryVecDeque Nat) 0).2.changes = [⟨.Update, 0⟩] := by
  decide

/-- C4 amended: an out-of-range index is not handled uniformly and does not
leave the state unchanged: get returns no value (a panic in the source);
remove returns None but still appends a renumbered Remove record and shifts
no entry; get_mut appends an Update record before its failing access; insert
aborts (a panic in the source) rather than reporting a recoverable failure. -/
theorem c4_amended (s : FactoryVecDeque Nat) (i : Nat) (h : s.data.length ≤ i) :
    get s i = none
    ∧ (remove s i).1 = none
    ∧ (remove s i).2.changes =
        (s.changes.map fun e =>
          if i < e.index then ⟨e.ty, e.index - 1⟩ else e) ++ [⟨.Remove, i⟩]
    ∧ (remove s i).2.data.length = s.data.length
    ∧ (get_mut s i).1 = none
    ∧ (get_mut s i).2.changes = s.changes ++ [⟨.Update, i⟩]
    ∧ (s.data.length < i → insert s i 0 = none) := by
  have hnone : s.data[i]? = none := List.getElem?_eq_none h
  refine ⟨?_, ?_, rfl, ?_, ?_, rfl, ?_⟩
  · unfold get
    rw [hnone]
    rfl
  · unfold remove add_change
    dsimp only
    rw [hnone]
    rfl
  · unfold remove add_change
    dsimp only
    rw [List.length_map, List.length_append, List.length_take, List.length_drop]
    omega
  · unfold get_mut add_change
    dsimp only
    rw [hnone]
    rfl
  · intro hlt
    unfold insert add_change
    dsimp only
    rw [if_neg]
    rw [List.length_map]
    omega

/-- C4 amended witness: the empty collection with index 1 satisfies the
hypothesis, and the failing remove still appends a Remove record. -/
theorem c4_amended_witness :
    (⟨[], [], []⟩ : FactoryVecDeque Nat).data.length ≤ 1
    ∧ (remove (⟨[], [], []⟩ : FactoryVecDeque Nat) 1).2.changes =
        (([] : List Change).map fun e =>
          if 1 < e.index then ⟨e.ty, e.index - 1⟩ else e) ++ [⟨.Remove, 1⟩] :=
  ⟨by decide, (c4_amended ⟨[], [], []⟩ 1 (by decide)).2.2.1⟩

/-- C9: pop_back and pop_front on an empty collection return None, yet both
still append a Remove record at slot 0 to the pending change log instead of
leaving the collection state unchanged. -/
theorem c9_pop_on_empty (s : FactoryVecDeque Nat) (h : s.data = []) :
    (pop_back s).1 = none
    ∧ (pop_back s).2.changes.length = s.changes.length + 1
    ∧ (pop_back s).2.changes.getLast? = some ⟨.Remove, 0⟩
    ∧ (pop_front s).1 = none
    ∧ (pop_front s).2.changes.length = s.changes.length + 1
    ∧ (pop_front s).2.changes.getLast? = some ⟨.Remove, 0⟩ := by
  obtain ⟨d, w, c⟩ := s
  simp only at h
  subst h
  refine ⟨rfl, ?_, ?_, rfl, ?_, ?_⟩
  · unfold pop_back add_change
    dsimp only
    rw [List.length_append, List.length_map]
    rfl
  · unfold pop_back add_change
    dsimp only
    exact List.getLast?_concat _
  · unfold pop_front add_change
    dsimp only
    rw [List.length_append, List.length_map]
    rfl
  · unfold pop_front add_change
    dsimp only
    exact List.getLast?_concat _

/-- C9 witness: the empty collection with one queued record satisfies the
hypothesis; its pop_back yields None and a log one record longer ending in
Remove at 0. -/
theorem c9_witness :
    (⟨[], [], [⟨.Update, 3⟩]⟩ : FactoryVecDeque Nat).data = []
    ∧ (pop_back (⟨[], [], [⟨.Update, 3⟩]⟩ : FactoryVecDeque Nat)).1 = none
    ∧ (pop_back (⟨[], [], [⟨.Update, 3⟩]⟩ : FactoryVecDeque Nat)).2.changes.getLast?
        = some ⟨.Remove, 0⟩ :=
  ⟨by decide, (c9_pop_on_empty ⟨[], [], [⟨.Update, 3⟩]⟩ (by decide)).1,
    (c9_pop_on_empty ⟨[], [], [⟨.Update, 3⟩]⟩ (by decide)).2.2.1⟩

/-- Any entry of an enumFrom pairing has its second component in the list. -/
theorem snd_mem_of_mem_enumFrom {α : Type} :
    ∀ (l : List α) (n : Nat) (p : Nat × α), p ∈ l.enumFrom n → p.2 ∈ l := by
  intro l
  induction l with
  | nil => intro n p h; simp [List.enumFrom] at h
  | cons x xs ih =>
      intro n p h
      simp only [List.enumFrom, List.mem_cons] at h
      rcases h with h | h
      · subst h; exact List.mem_cons_self _ _
      · exact List.mem_cons_of_mem _ (ih _ p h)

/-- Replaying a plan whose slots are all Unchanged leaves the accumulator
untouched and issues nothing. -/
theorem foldlM_generate_step_unchanged {α : Type} (d : List (IndexedData α)) :
    ∀ (l : List (Nat × ChangeType)) (acc : List (Widget α) × Nat × List (FOp α)),
      (∀ p ∈ l, p.2 = ChangeType.Unchanged) →
      l.foldlM (generate_step d) acc = some acc := by
  intro l
  induction l with
  | nil => intro acc _; rfl
  | cons p ps ih =>
      intro acc h
      have hp : p.2 = ChangeType.Unchanged := h p (List.mem_cons_self _ _)
      have hstep : generate_step d acc p = some acc := by
        obtain ⟨i, c⟩ := p
        have hc : c = ChangeType.Unchanged := hp
        subst hc
        rfl
      rw [List.foldlM_cons, hstep]
      simp only [Option.bind_eq_bind, Option.some_bind]
      exact ih acc fun q hq => h q (List.mem_cons_of_mem _ hq)

/-- Reconciling a collection whose pending log is empty is a complete no-op:
it returns the same state and issues no collaborator call. -/
theorem generate_no_changes {α : Type} (s : FactoryVecDeque α) (nid : Nat)
    (h : s.changes = []) : generate s nid = some (s, nid, []) := by
  obtain ⟨d, w, c⟩ := s
  have hc : c = [] := h
  subst hc
  have hcc : compile_changes (⟨d, w, []⟩ : FactoryVecDeque α)
      = some (List.replicate (d.length + 1) ChangeType.Unchanged) := rfl
  unfold generate
  rw [hcc, Option.some_bind]
  have hall : ∀ p ∈ (List.replicate (d.length + 1) ChangeType.Unchanged).enum,
      p.2 = ChangeType.Unchanged := fun p hp =>
    List.eq_of_mem_replicate (snd_mem_of_mem_enumFrom _ 0 p hp)
  rw [foldlM_generate_step_unchanged d _ (w, nid, []) hall, Option.some_bind]

/-- C8: after a successful reconcile, a second reconcile with no mutation in
between performs zero collaborator operations and leaves the state as is. -/
theorem c8_reconcile_idempotent {α : Type} (s s1 : FactoryVecDeque α)
    (nid nid1 : Nat) (ops : List (FOp α))
    (h : generate s nid = some (s1, nid1, ops)) :
    generate s1 nid1 = some (s1, nid1, []) := by
  have h1 : s1.changes = [] := by
    unfold generate at h
    cases hc : compile_changes s with
    | none => rw [hc] at h; simp at h
    | some cm =>
        rw [hc, Option.some_bind] at h
        cases hf : cm.enum.foldlM (generate_step s.data) (s.widgets, nid, []) with
        | none => rw [hf] at h; simp at h
        | some acc =>
            rw [hf, Option.some_bind] at h
            injection h with h
            have hfst : ({ s with widgets := acc.1, changes := [] } : FactoryVecDeque α)
                = s1 := congrArg Prod.fst h
            rw [← hfst]
  exact generate_no_changes s1 nid1 h1

/-- C8 witness: reconciling the empty reconciled collection satisfies the
hypothesis, and the follow-up reconcile is a no-op. -/
theorem c8_witness :
    generate (⟨[], [], []⟩ : FactoryVecDeque Nat) 0 = some (⟨[], [], []⟩, 0, []) :=
  c8_reconcile_idempotent ⟨[], [], []⟩ ⟨[], [], []⟩ 0 0 [] (by decide)

/-- Pointwise characterization of the handle invariant. -/
theorem handleInv_iff (s : FactoryVecDeque α) :
    handleInv s ↔ ∀ (k : Nat) (e : IndexedData α), s.data[k]? = some e → e.index = k := by
  constructor
  · intro h k e hk
    obtain ⟨hlt, hget⟩ := List.getElem?_eq_some_iff.mp hk
    have h1 : (s.data.map fun e2 => e2.index)[k]? = (List.range s.data.length)[k]? := by
      rw [h]
    rw [List.getElem?_map, List.getElem?_eq_getElem hlt, List.getElem?_range hlt] at h1
    rw [hget] at h1
    exact Option.some.inj h1
  · intro h
    apply List.ext_getElem?
    intro n
    by_cases hn : n < s.data.length
    · rw [List.getElem?_map, List.getElem?_eq_getElem hn, List.getElem?_range hn]
      rw [Option.map_some']
      rw [h n s.data[n] (List.getElem?_eq_getElem hn)]
    · push_neg at hn
      rw [List.getElem?_map, List.getElem?_eq_none hn, List.getElem?_eq_none]
      · rfl
      · rw [List.length_range]; exact hn

/-- push_back preserves the handle invariant. -/
theorem inv_push_back (s : FactoryVecDeque α) (v : α) (h : handleInv s) :
    handleInv (push_back s v) := by
  rw [handleInv_iff] at h ⊢
  intro k e hk
  have hd : (push_back s v).data = s.data ++ [⟨v, s.data.length⟩] := rfl
  rw [hd, List.getElem?_append] at hk
  split at hk
  · exact h k e hk
  · rename_i hge
    cases hm : k - s.data.length with
    | zero =>
        rw [hm, List.getElem?_cons_zero] at hk
        injection hk with hk
        subst hk
        show s.data.length = k
        omega
    | succ m =>
        rw [hm, List.getElem?_cons_succ] at hk
        simp at hk

/-- pop_back preserves the handle invariant. -/
theorem inv_pop_back (s : FactoryVecDeque α) (h : handleInv s) :
    handleInv (pop_back s).2 := by
  rw [handleInv_iff] at h ⊢
  intro k e hk
  have hd : (pop_back s).2.data = s.data.take (s.data.length - 1) := rfl
  rw [hd, List.getElem?_take] at hk
  split at hk
  · exact h k e hk
  · simp at hk

/-- push_front preserves the handle invariant. -/
theorem inv_push_front (s : FactoryVecDeque α) (v : α) (h : handleInv s) :
    handleInv (push_front s v) := by
  rw [handleInv_iff] at h ⊢
  intro k e hk
  have hd : (push_front s v).data
      = ⟨v, 0⟩ :: (s.data.map fun e2 => { e2 with index := e2.index + 1 }) := rfl
  rw [hd] at hk
  cases k with
  | zero =>
      rw [List.getElem?_cons_zero] at hk
      injection hk with hk
      subst hk
      rfl
  | succ k =>
      rw [List.getElem?_cons_succ, List.getElem?_map] at hk
      cases hq : s.data[k]? with
      | none => rw [hq] at hk; simp at hk
      | some e0 =>
          rw [hq] at hk
          injection hk with hk
          subst hk
          show e0.index + 1 = k + 1
          rw [h k e0 hq]

/-- pop_front preserves the handle invariant. -/
theorem inv_pop_front (s : FactoryVecDeque α) (h : handleInv s) :
    handleInv (pop_front s).2 := by
  obtain ⟨d, w, c⟩ := s
  cases d with
  | nil =>
      rw [handleInv_iff]
      intro k e hk
      have hd : (pop_front (⟨[], w, c⟩ : FactoryVecDeque α)).2.data = [] := rfl
      rw [hd] at hk
      simp at hk
  | cons x rest =>
      rw [handleInv_iff] at h ⊢
      intro k e hk
      have hd : (pop_front (⟨x :: rest, w, c⟩ : FactoryVecDeque α)).2.data
          = rest.map fun e2 => { e2 with index := e2.index - 1 } := rfl
      rw [hd, List.getElem?_map] at hk
      cases hq : rest[k]? with
      | none => rw [hq] at hk; simp at hk
      | some e0 =>
          rw [hq] at hk
          injection hk with hk
          subst hk
          have hq1 : (x :: rest)[k + 1]? = some e0 := by
            rw [List.getElem?_cons_succ]; exact hq
          have := h (k + 1) e0 hq1
          show e0.index - 1 = k
          omega

/-- insert at an in-range position preserves the handle invariant. -/
theorem inv_insert (s : FactoryVecDeque α) (i : Nat) (v : α) (h : handleInv s)
    (hi : i ≤ s.data.length) : handleInv ((insert s i v).getD s) := by
  have hdata : ((insert s i v).getD s).data
      = (s.data.map fun e =>
          if e.index ≥ i then { e with index := e.index + 1 } else e).take i
        ++ ⟨v, i⟩ :: (s.data.map fun e =>
          if e.index ≥ i then { e with index := e.index + 1 } else e).drop i := by
    unfold insert add_change
    dsimp only
    split
    · rfl
    · rename_i hcond
      exfalso
      apply hcond
      rw [List.length_map]
      exact hi
  rw [handleInv_iff] at h ⊢
  intro k e hk
  rw [hdata] at hk
  have hlen : ((s.data.map fun e =>
      if e.index ≥ i then { e with index := e.index + 1 } else e).take i).length = i := by
    rw [List.length_take, List.length_map]
    omega
  rw [List.getElem?_append, hlen] at hk
  split at hk
  · rename_i hki
    rw [List.getElem?_take] at hk
    rw [if_pos hki, List.getElem?_map] at hk
    cases hq : s.data[k]? with
    | none => rw [hq] at hk; simp at hk
    | some e0 =>
        rw [hq] at hk
        injection hk with hk
        have he0 : e0.index = k := h k e0 hq
        have hnge : ¬(e0.index ≥ i) := by omega
        simp only [if_neg hnge] at hk
        subst hk
        exact he0
  · rename_i hki
    cases hm : k - i with
    | zero =>
        rw [hm, List.getElem?_cons_zero] at hk
        injection hk with hk
        subst hk
        show i = k
        omega
    | succ m =>
        rw [hm, List.getElem?_cons_succ, List.getElem?_drop, List.getElem?_map] at hk
        cases hq : s.data[i + m]? with
        | none => rw [hq] at hk; simp at hk
        | some e0 =>
            rw [hq] at hk
            injection hk with hk
            have he0 : e0.index = i + m := h (i + m) e0 hq
            have hge : e0.index ≥ i := by omega
            simp only [if_pos hge] at hk
            subst hk
            show e0.index + 1 = k
            omega

/-- remove at an in-range position preserves the handle invariant. -/
theorem inv_remove (s : FactoryVecDeque α) (i : Nat) (h : handleInv s)
    (hi : i < s.data.length) : handleInv (remove s i).2 := by
  have hdata : (remove s i).2.data
      = (s.data.take i ++ s.data.drop (i + 1)).map fun e =>
          if e.index > i then { e with index := e.index - 1 } else e := rfl
  rw [handleInv_iff] at h ⊢
  intro k e hk
  rw [hdata, List.getElem?_map] at hk
  cases hq : (s.data.take i ++ s.data.drop (i + 1))[k]? with
  | none => rw [hq] at hk; simp at hk
  | some e1 =>
      rw [hq] at hk
      injection hk with hk
      have hlen : (s.data.take i).length = i := by
        rw [List.length_take]
        omega
      rw [List.getElem?_append, hlen] at hq
      split at hq
      · rename_i hki
        rw [List.getElem?_take, if_pos hki] at hq
        have he1 : e1.index = k := h k e1 hq
        have hngt : ¬(e1.index > i) := by omega
        simp only [if_neg hngt] at hk
        subst hk
        exact he1
      · rename_i hki
        rw [List.getElem?_drop] at hq
        have harith : i + 1 + (k - i) = k + 1 := by omega
        rw [harith] at hq
        have he1 : e1.index = k + 1 := h (k + 1) e1 hq
        have hgt : e1.index > i := by omega
        simp only [if_pos hgt] at hk
        subst hk
        show e1.index - 1 = k
        omega

/-- Every in-range public mutation preserves the handle invariant. -/
theorem inv_applyOp {α : Type} (s : FactoryVecDeque α) (op : Op α) (h : handleInv s)
    (hr : inRange s op = true) : handleInv (applyOp s op) := by
  cases op with
  | pushBack v => exact inv_push_back s v h
  | popBack => exact inv_pop_back s h
  | pushFront v => exact inv_push_front s v h
  | popFront => exact inv_pop_front s h
  | insertOp i v => exact inv_insert s i v h (of_decide_eq_true hr)
  | removeOp i => exact inv_remove s i h (of_decide_eq_true hr)

/-- C1: starting from any collection state satisfying the handle invariant
(as every reachable state does, the empty collection included), after every
prefix of any sequence of in-range mutation operations, each remaining
entry's DynamicIndex cell equals the entry's actual index in the data
sequence. -/
theorem c1_handle_invariant {α : Type} (s : FactoryVecDeque α) (ops : List (Op α))
    (h : handleInv s) (hr : seqInRange s ops = true) :
    ∀ k, handleInv (applyOps s (ops.take k)) := by
  induction ops generalizing s with
  | nil =>
      intro k
      rw [List.take_nil]
      exact h
  | cons op rest ih =>
      intro k
      simp only [seqInRange, Bool.and_eq_true] at hr
      cases k with
      | zero =>
          rw [List.take_zero]
          exact h
      | succ k =>
          have h1 : handleInv (applyOp s op) := inv_applyOp s op h hr.1
          have h3 := ih (applyOp s op) h1 hr.2 k
          rw [List.take_succ_cons]
          exact h3

/-- C1 witness: a concrete reconciled state and mixed six-operation sequence
satisfy the hypotheses, and the invariant holds after the four-step prefix. -/
theorem c1_witness :
    handleInv recon3
    ∧ seqInRange recon3 [Op.pushBack 5, Op.pushFront 6, Op.insertOp 1 7,
        Op.removeOp 0, Op.popBack, Op.popFront] = true
    ∧ handleInv (applyOps recon3 ([Op.pushBack 5, Op.pushFront 6, Op.insertOp 1 7,
        Op.removeOp 0, Op.popBack, Op.popFront].take 4)) :=
  ⟨by decide, by decide,
    c1_handle_invariant recon3 [Op.pushBack 5, Op.pushFront 6, Op.insertOp 1 7,
      Op.removeOp 0, Op.popBack, Op.popFront] (by decide) (by decide) 4⟩

end Relm4
